import Mathlib

/-!
Verification of the world-persistence subsystem of the token game
(`src/Token/token.ts`, `src/Grid/grid.ts`, `src/Game/core.ts`,
`src/Game/gameState.ts`).

The embedding mirrors the TypeScript source:
JavaScript `Map` objects become insertion-ordered association lists,
JavaScript numbers become `ℤ` (token values, coordinates) or `ℚ`
(probabilities, hash outputs) or `ℝ` (Euclidean distances), and the
stateful `TokenGrid` methods become state-passing functions.
The deterministic hash `_luck.ts` is not part of the snapshot, so it is
taken as an abstract parameter `luck : String → ℚ` whose range contract
[0,1) comes from the specification.
-/

set_option autoImplicit false

namespace TokenWorld

/-! ### Decimal rendering of integers, mirroring JS template-string keys

The source keys its maps by `coord.toString()` which renders as
`i,j` via string interpolation of integer-valued JS numbers, and by
`val-` followed by the token value.  We render integers explicitly so
that injectivity and character-shape facts are provable. -/

/-- One decimal digit as a character (`0`–`9`); arguments ≥ 10 never occur. -/
def digitChar : ℕ → Char
  | 0 => '0'
  | 1 => '1'
  | 2 => '2'
  | 3 => '3'
  | 4 => '4'
  | 5 => '5'
  | 6 => '6'
  | 7 => '7'
  | 8 => '8'
  | 9 => '9'
  | _ => '*'

/-- Decimal digit characters of a natural number, most significant first,
with explicit fuel (`natChars (n+1) n` renders `n` completely). -/
def natChars : ℕ → ℕ → List Char
  | 0, _ => []
  | f + 1, n => if n < 10 then [digitChar n] else natChars f (n / 10) ++ [digitChar (n % 10)]

/-- JS `String(n)` for a natural number. -/
def natStr (n : ℕ) : String := ⟨natChars (n + 1) n⟩

/-- JS `String(i)` for an integer-valued number: optional minus sign, then digits. -/
def intStr (i : ℤ) : String := if i < 0 then "-" ++ natStr i.natAbs else natStr i.toNat

/-- Base-10 value of a digit-character list, used to invert `natChars`. -/
def charsVal (l : List Char) : ℕ := l.foldl (fun a c => 10 * a + (c.toNat - 48)) 0

/-! ### Grid coordinates (`src/Grid/grid.ts`, class `GridCoord`) -/

/-- Discrete grid-cell coordinate `(i, j)`, from `class GridCoord`. -/
structure GridCoord where
  i : ℤ
  j : ℤ
deriving DecidableEq

/-- `GridCoord.toString`, the canonical map key: the template string `i,j`. -/
def GridCoord.toString (c : GridCoord) : String := intStr c.i ++ "," ++ intStr c.j

/-- `GridCoord.equals`. -/
def GridCoord.equals (a b : GridCoord) : Bool := a.i == b.i && a.j == b.j

/-- `GridCoord.distanceTo`: Euclidean distance between cell centers
(`Math.sqrt(Math.pow(this.i - other.i, 2) + Math.pow(this.j - other.j, 2))`). -/
noncomputable def GridCoord.distanceTo (a b : GridCoord) : ℝ :=
  Real.sqrt ((((a.i : ℝ) - b.i)) ^ 2 + (((a.j : ℝ) - b.j)) ^ 2)

/-- `GridCoord.isWithin`: `this.distanceTo(other) <= radius + 0.3`
(the source adds a small buffer for visual alignment). -/
def GridCoord.isWithin (a b : GridCoord) (radius : ℝ) : Prop :=
  a.distanceTo b ≤ radius + 3 / 10

/-- The flyweight-cache key for a token value, from `getOrCreateToken`:
the template string `val-` followed by the value. -/
def valKey (v : ℤ) : String := "val-" ++ intStr v

/-! ### JavaScript `Map` model: insertion-ordered association lists

`Map.set` replaces in place when the key exists and appends otherwise;
`Map.get` returns the first (unique) binding; `Map.delete` removes it. -/

section MapModel

variable {α : Type}

/-- `Map.get`. -/
def mget : List (String × α) → String → Option α
  | [], _ => none
  | (k', v) :: rest, k => if k' = k then some v else mget rest k

/-- `Map.set`. -/
def mset : List (String × α) → String → α → List (String × α)
  | [], k, v => [(k, v)]
  | (k', v') :: rest, k, v =>
    if k' = k then (k, v) :: rest else (k', v') :: mset rest k v

/-- `Map.delete`. -/
def mdel : List (String × α) → String → List (String × α)
  | [], _ => []
  | (k', v') :: rest, k => if k' = k then rest else (k', v') :: mdel rest k

/-- `Map.has`. -/
def mhas (m : List (String × α)) (k : String) : Bool := (mget m k).isSome

/-- Keys of the map, in insertion order. -/
def mkeys (m : List (String × α)) : List String := m.map Prod.fst

end MapModel

/-! ### Tokens and configuration (`src/Token/token.ts`, `src/Game/core.ts`) -/

/-- Immutable value object wrapping a token power value (`class Token`). -/
structure Token where
  value : ℤ
deriving DecidableEq

/-- `Token.canCombineWith`: `this.value === other.value`. -/
def Token.canCombineWith (t other : Token) : Bool := t.value == other.value

/-- `Token.combine`: a new token with `value * 2`. -/
def Token.combine (t : Token) : Token := ⟨t.value * 2⟩

/-- `Token.isWinning`: `this.value >= winningValue`. -/
def Token.isWinning (t : Token) (winningValue : ℤ) : Bool := decide (winningValue ≤ t.value)

/-- `class GameConfig` (`src/Game/core.ts` lines 8-18): world origin,
cell size, interaction radius, spawn probability, winning value. -/
structure GameConfig where
  globalLat : ℚ
  globalLng : ℚ
  cellSize : ℚ
  interactionRadius : ℚ
  tokenSpawnProbability : ℚ
  winningVal : ℤ

/-! ### The world store (`class TokenGrid`)

`tokens` is the single `Map<string, Token>` holding both the flyweight
bindings (keys `val-<value>`) and tokens explicitly placed at a
coordinate (keys `<i>,<j>`); `modifiedCells` is the memento map from
coordinate keys to `{ tokenValue: number | null }`. -/

structure TokenGrid where
  tokens : List (String × Token)
  modifiedCells : List (String × Option ℤ)
deriving DecidableEq

namespace TokenGrid

/-- A freshly constructed `TokenGrid` (both maps empty). -/
def fresh : TokenGrid := ⟨[], []⟩

/-- `TokenGrid.getKey`: `coord.toString()`. -/
def getKey (c : GridCoord) : String := c.toString

/-- `TokenGrid.getOrCreateToken`: return the shared flyweight token for
`value`, creating and storing it on first request. -/
def getOrCreateToken (g : TokenGrid) (value : ℤ) : Token × TokenGrid :=
  match mget g.tokens (valKey value) with
  | some t => (t, g)
  | none => (⟨value⟩, { g with tokens := mset g.tokens (valKey value) ⟨value⟩ })

/-- `TokenGrid.loadMemento`: `undefined` (outer `none`) when no memento
exists, `null` (`some none`) for an empty-cell memento, otherwise the
token re-materialized through the flyweight cache (which may grow). -/
def loadMemento (g : TokenGrid) (c : GridCoord) : Option (Option Token) × TokenGrid :=
  match mget g.modifiedCells (getKey c) with
  | none => (none, g)
  | some none => (some none, g)
  | some (some v) =>
    let r := g.getOrCreateToken v
    (some (some r.1), r.2)

/-- `TokenGrid.saveMemento`: record `token.value` (or `null`) for the cell. -/
def saveMemento (g : TokenGrid) (c : GridCoord) (token : Option Token) : TokenGrid :=
  { g with modifiedCells := mset g.modifiedCells (getKey c) (token.map Token.value) }

/-- `TokenGrid.getOrSpawn` (`src/Token/token.ts` lines 72-102): memento
first, then the position entry of the token map, then the hash-based
spawn decision (`luck` of the keys `<coord>,token` and `<coord>,value`,
hard-coded magnitude bound 4), persisting the decision as a memento. -/
def getOrSpawn (luck : String → ℚ) (config : GameConfig) (g : TokenGrid) (c : GridCoord) :
    Option Token × TokenGrid :=
  match g.loadMemento c with
  | (some mv, g₁) => (mv, g₁)
  | (none, g₁) =>
    match mget g₁.tokens (getKey c) with
    | some t => (some t, g₁)
    | none =>
      let spawnRoll := luck (c.toString ++ ",token")
      if spawnRoll < config.tokenSpawnProbability then
        let value := ⌊luck (c.toString ++ ",value") * 4⌋ + 1
        let r := g₁.getOrCreateToken value
        (some r.1, r.2.saveMemento c (some r.1))
      else
        (none, g₁.saveMemento c none)

/-- `TokenGrid.placeToken`: store the token under the coordinate key and
save a memento of the placement. -/
def placeToken (g : TokenGrid) (c : GridCoord) (token : Token) : TokenGrid :=
  let g₁ : TokenGrid := { g with tokens := mset g.tokens (getKey c) token }
  g₁.saveMemento c (some token)

/-- `TokenGrid.removeToken`: return the token map's entry for the
coordinate key (or `null`), delete it, and save an empty memento. -/
def removeToken (g : TokenGrid) (c : GridCoord) : Option Token × TokenGrid :=
  let token := mget g.tokens (getKey c)
  let g₁ : TokenGrid := { g with tokens := mdel g.tokens (getKey c) }
  (token, g₁.saveMemento c none)

/-- `TokenGrid.hasWinningToken`: scan the values of the token map. -/
def hasWinningToken (g : TokenGrid) (winningValue : ℤ) : Bool :=
  (g.tokens.map Prod.snd).any (fun t => t.isWinning winningValue)

/-- Modelled from the spec: `TokenGrid.setModifiedCells` is invoked by
`TokenGame.loadGame` (`this.grid.setModifiedCells(result.gridModifiedCells!)`)
on a freshly constructed grid but is absent from the snapshot's
`TokenGrid` class; per the spec's `importMementos`, it installs the
imported memento collection into the store. -/
def setModifiedCells (g : TokenGrid) (m : List (String × Option ℤ)) : TokenGrid :=
  { g with modifiedCells := m }

/-- Modelled from the spec: `TokenGrid.getModifiedCells` is invoked by
`TokenGame.saveGame` (`this.grid.getModifiedCells()`) but absent from the
snapshot's `TokenGrid` class; per the spec's `exportMementos`, it returns
the memento collection. -/
def getModifiedCells (g : TokenGrid) : List (String × Option ℤ) := g.modifiedCells

end TokenGrid

/-- Value-level result of a query: the token value, or `none` for absence. -/
def getOrSpawnVal (luck : String → ℚ) (config : GameConfig) (g : TokenGrid)
    (c : GridCoord) : Option ℤ :=
  ((TokenGrid.getOrSpawn luck config g c).1).map Token.value

/-! ### Public operation sequences and reachable states -/

/-- One public `TokenGrid` operation. -/
inductive Op where
  | query (c : GridCoord)
  | place (c : GridCoord) (t : Token)
  | remove (c : GridCoord)
  | create (v : ℤ)

/-- State effect of one public operation. -/
def runOp (luck : String → ℚ) (config : GameConfig) (g : TokenGrid) : Op → TokenGrid
  | .query c => (TokenGrid.getOrSpawn luck config g c).2
  | .place c t => g.placeToken c t
  | .remove c => (g.removeToken c).2
  | .create v => (g.getOrCreateToken v).2

/-- State after a sequence of public operations. -/
def runOps (luck : String → ℚ) (config : GameConfig) (g : TokenGrid) (ops : List Op) :
    TokenGrid :=
  ops.foldl (runOp luck config) g

/-- A state is reachable when some sequence of public operations produces
it from a freshly constructed grid. -/
def Reachable (luck : String → ℚ) (config : GameConfig) (g : TokenGrid) : Prop :=
  ∃ ops : List Op, runOps luck config TokenGrid.fresh ops = g

/-- Operations that are not a `placeToken`/`removeToken` mutation at `c`. -/
def AvoidsMut (c : GridCoord) : Op → Prop
  | .place c' _ => c' ≠ c
  | .remove c' => c' ≠ c
  | _ => True

/-! ### State invariants of reachable stores -/

/-- Flyweight soundness: the token cached under `val-v` has value `v`. -/
def ValInvP (g : TokenGrid) : Prop :=
  ∀ (v : ℤ) (t : Token), mget g.tokens (valKey v) = some t → t.value = v

/-- Memento coverage: a token stored under a coordinate key is always
accompanied by a memento recording its value. -/
def CoordInvP (g : TokenGrid) : Prop :=
  ∀ (c : GridCoord) (t : Token), mget g.tokens c.toString = some t →
    mget g.modifiedCells c.toString = some (some t.value)

/-- Both maps have unique keys. -/
def NodupP (g : TokenGrid) : Prop :=
  (mkeys g.tokens).Nodup ∧ (mkeys g.modifiedCells).Nodup

/-- Conjunction of the maintained invariants. -/
def StateInv (g : TokenGrid) : Prop := ValInvP g ∧ CoordInvP g ∧ NodupP g

/-! ### The fresh decision and the per-coordinate memento predicate -/

/-- The decision a fresh store makes at `c`. -/
def freshVal (luck : String → ℚ) (config : GameConfig) (c : GridCoord) : Option ℤ :=
  getOrSpawnVal luck config TokenGrid.fresh c

/-- The memento at `c` is either still undecided or records the fresh decision. -/
def MemOK (luck : String → ℚ) (config : GameConfig) (c : GridCoord) (g : TokenGrid) : Prop :=
  mget g.modifiedCells c.toString = none ∨
    mget g.modifiedCells c.toString = some (freshVal luck config c)

/-! ### Persistence (`src/Game/gameState.ts`) -/

/-- One serialized memento entry, `{ coord: string, tokenValue: number | null }`. -/
structure SerializedCellEntry where
  coord : String
  tokenValue : Option ℤ
deriving DecidableEq

namespace SerializableGrid

/-- `SerializableGrid.toJSON`: convert the memento map to an array of entries. -/
def toJSON (modifiedCells : List (String × Option ℤ)) : List SerializedCellEntry :=
  modifiedCells.map (fun p => ⟨p.1, p.2⟩)

/-- `SerializableGrid.fromJSON`: rebuild a map from the array via `Map.set`. -/
def fromJSON (data : List SerializedCellEntry) : List (String × Option ℤ) :=
  data.foldl (fun acc item => mset acc item.coord item.tokenValue) []

end SerializableGrid

/-- Optional grid-cell data in a raw import payload; `tokenValue` is an
arbitrary JSON number, so it is modelled as `ℚ`. -/
structure RawCellEntry where
  coord : String
  tokenValue : Option ℚ
deriving DecidableEq

/-- Raw serialized grid in an import payload. -/
structure RawGrid where
  modifiedCells : List RawCellEntry
deriving DecidableEq

/-- Raw serialized player in an import payload. -/
structure RawPlayer where
  posI : ℚ
  posJ : ℚ
  inventory : Option ℚ
deriving DecidableEq

/-- Parsed form of a persisted `GameStateData` payload.  Every field is
optional because `JSON.parse` enforces no shape. -/
structure GameStateData where
  player : Option RawPlayer
  grid : Option RawGrid
  gameWon : Option Bool
  timestamp : Option String
  version : Option String
  movementMode : Option String
deriving DecidableEq

/-- JS truthiness of an optional string field (absent and empty are falsy). -/
def truthyStr : Option String → Bool
  | none => false
  | some s => !(s == "")

/-- The validation in `importGameState`:
`if (!data.player || !data.grid || !data.version) throw ...`. -/
def GameStateData.isValid (d : GameStateData) : Bool :=
  d.player.isSome && d.grid.isSome && truthyStr d.version

/-- `GameStateManager.importGameState` (`src/Game/gameState.ts` lines
242-257).  The first argument is the currently stored payload
(`localStorage`), the second the parse result of the import string
(`none` when `JSON.parse` throws).  Returns the success flag and the
stored payload afterwards. -/
def importGameState (stored : Option GameStateData) (payload : Option GameStateData) :
    Bool × Option GameStateData :=
  match payload with
  | none => (false, stored)
  | some d => if d.isValid then (true, some d) else (false, stored)

/-! ### Concrete instances used for witnesses and counterexamples -/

/-- A concrete hash function, constantly 0 (every roll succeeds against a
positive spawn probability, every magnitude is 1). -/
def constZeroHash : String → ℚ := fun _ => 0

/-- A concrete configuration with spawn probability 1. -/
def probOneConfig : GameConfig := ⟨0, 0, 1, 3, 1, 64⟩

/-- A concrete configuration with spawn probability 0 (nothing spawns). -/
def probZeroConfig : GameConfig := ⟨0, 0, 1, 3, 0, 64⟩

/-- An import payload that has the three validated fields but a
non-integer token value 5/2. -/
def badPayload : GameStateData :=
  { player := some ⟨0, 0, none⟩
    grid := some ⟨[⟨"0,0", some (5 / 2)⟩]⟩
    gameWon := some false
    timestamp := some "2024-01-01T00:00:00.000Z"
    version := some "1.0.0"
    movementMode := none }

/-! ### Properties of the decimal rendering and the map keys -/

theorem charsVal_append (xs : List Char) (c : Char) :
    charsVal (xs ++ [c]) = 10 * charsVal xs + (c.toNat - 48) := by
  simp [charsVal, List.foldl_append]

theorem digitChar_toNat {d : ℕ} (h : d < 10) : (digitChar d).toNat = 48 + d := by
  interval_cases d <;> rfl

theorem digitChar_isDigit {d : ℕ} (h : d < 10) :
    48 ≤ (digitChar d).toNat ∧ (digitChar d).toNat ≤ 57 := by
  interval_cases d <;> exact ⟨by decide, by decide⟩

theorem natChars_digits : ∀ (f n : ℕ), ∀ c ∈ natChars f n,
    48 ≤ c.toNat ∧ c.toNat ≤ 57 := by
  intro f
  induction f with
  | zero => intro n c hc; simp [natChars] at hc
  | succ f ih =>
    intro n c hc
    simp only [natChars] at hc
    split at hc
    · rcases List.mem_singleton.mp hc with rfl
      exact digitChar_isDigit (by omega)
    · rcases List.mem_append.mp hc with h | h
      · exact ih _ _ h
      · rcases List.mem_singleton.mp h with rfl
        exact digitChar_isDigit (Nat.mod_lt _ (by omega))

theorem natChars_ne_nil (f n : ℕ) (hf : 0 < f) : natChars f n ≠ [] := by
  cases f with
  | zero => omega
  | succ f =>
    simp only [natChars]
    split
    · simp
    · intro h
      rcases List.append_eq_nil.mp h with ⟨_, h2⟩
      simp at h2

theorem charsVal_natChars : ∀ (f n : ℕ), n < 10 ^ f → charsVal (natChars f n) = n := by
  intro f
  induction f with
  | zero => intro n h; interval_cases n; rfl
  | succ f ih =>
    intro n h
    simp only [natChars]
    split
    · rename_i h10
      have : (digitChar n).toNat = 48 + n := digitChar_toNat h10
      simp [charsVal, this]
    · rename_i h10
      rw [charsVal_append]
      have hdiv : n / 10 < 10 ^ f := by
        rw [Nat.div_lt_iff_lt_mul (by omega)]
        calc n < 10 ^ (f + 1) := h
          _ = 10 ^ f * 10 := by ring
      rw [ih _ hdiv, digitChar_toNat (Nat.mod_lt _ (by omega))]
      omega

theorem natStr_charsVal (n : ℕ) : charsVal (natStr n).data = n := by
  have : n < 10 ^ (n + 1) :=
    lt_of_le_of_lt (Nat.le_of_lt_succ (Nat.lt_succ_of_le le_rfl))
      (Nat.lt_pow_self (by omega) n |>.trans_le (Nat.pow_le_pow_right (by omega) (by omega)))
  exact charsVal_natChars (n + 1) n this

theorem natStr_inj {m n : ℕ} (h : natStr m = natStr n) : m = n := by
  have hd : (natStr m).data = (natStr n).data := by rw [h]
  have := natStr_charsVal m
  rw [hd, natStr_charsVal] at this
  omega

theorem natStr_digits (n : ℕ) : ∀ c ∈ (natStr n).data, 48 ≤ c.toNat ∧ c.toNat ≤ 57 :=
  fun c hc => natChars_digits (n + 1) n c hc

theorem natStr_ne_nil (n : ℕ) : (natStr n).data ≠ [] :=
  natChars_ne_nil (n + 1) n (by omega)

theorem string_data_append (s t : String) : (s ++ t).data = s.data ++ t.data := rfl

theorem intStr_data (i : ℤ) :
    (intStr i).data = if i < 0 then '-' :: (natStr i.natAbs).data else (natStr i.toNat).data := by
  unfold intStr
  split <;> simp [string_data_append]

theorem intStr_chars (i : ℤ) : ∀ c ∈ (intStr i).data,
    (48 ≤ c.toNat ∧ c.toNat ≤ 57) ∨ c = '-' := by
  intro c hc
  rw [intStr_data] at hc
  split at hc
  · rcases List.mem_cons.mp hc with rfl | hc
    · right; rfl
    · exact Or.inl (natStr_digits _ c hc)
  · exact Or.inl (natStr_digits _ c hc)

theorem intStr_ne_nil (i : ℤ) : (intStr i).data ≠ [] := by
  rw [intStr_data]
  split
  · simp
  · exact natStr_ne_nil _

theorem comma_not_mem_intStr (i : ℤ) : ',' ∉ (intStr i).data := by
  intro h
  rcases intStr_chars i ',' h with ⟨h1, h2⟩ | h3
  · revert h1 h2; decide
  · revert h3; decide

theorem intStr_inj {i j : ℤ} (h : intStr i = intStr j) : i = j := by
  have hd : (intStr i).data = (intStr j).data := by rw [h]
  rw [intStr_data, intStr_data] at hd
  by_cases hi : i < 0 <;> by_cases hj : j < 0 <;> simp [hi, hj] at hd
  · have h1 := natStr_charsVal i.natAbs
    rw [hd, natStr_charsVal] at h1
    omega
  · exfalso
    have hm : '-' ∈ (natStr j.toNat).data := by
      rw [← hd]; exact List.mem_cons_self _ _
    have := natStr_digits j.toNat '-' hm
    revert this; decide
  · exfalso
    have hm : '-' ∈ (natStr i.toNat).data := by
      rw [hd]; exact List.mem_cons_self _ _
    have := natStr_digits i.toNat '-' hm
    revert this; decide
  · have h1 := natStr_charsVal i.toNat
    rw [hd, natStr_charsVal] at h1
    omega

theorem coordKey_data (c : GridCoord) :
    c.toString.data = (intStr c.i).data ++ ',' :: (intStr c.j).data := by
  show ((intStr c.i ++ ",") ++ intStr c.j).data = _
  rw [string_data_append, string_data_append]
  simp

theorem append_comma_split : ∀ (xs₁ : List Char) {ys₁ xs₂ ys₂ : List Char},
    xs₁ ++ ',' :: ys₁ = xs₂ ++ ',' :: ys₂ → ',' ∉ xs₁ → ',' ∉ xs₂ →
    xs₁ = xs₂ ∧ ys₁ = ys₂ := by
  intro xs₁
  induction xs₁ with
  | nil =>
    intro ys₁ xs₂ ys₂ h h₁ h₂
    cases xs₂ with
    | nil => simpa using h
    | cons c rest =>
      exfalso
      have hc : c = ',' := (List.cons.injEq _ _ _ _ ▸ h).1.symm
      exact h₂ (hc ▸ List.mem_cons_self _ _)
  | cons c rest ih =>
    intro ys₁ xs₂ ys₂ h h₁ h₂
    cases xs₂ with
    | nil =>
      exfalso
      have hc : c = ',' := (List.cons.injEq _ _ _ _ ▸ h).1
      exact h₁ (hc ▸ List.mem_cons_self _ _)
    | cons c₂ rest₂ =>
      have h' := List.cons.injEq _ _ _ _ ▸ h
      have hrec := ih h'.2 (fun hm => h₁ (List.mem_cons_of_mem _ hm))
        (fun hm => h₂ (List.mem_cons_of_mem _ hm))
      exact ⟨by rw [h'.1, hrec.1], hrec.2⟩

theorem coordKey_inj {a b : GridCoord} (h : a.toString = b.toString) : a = b := by
  have hd : a.toString.data = b.toString.data := by rw [h]
  rw [coordKey_data, coordKey_data] at hd
  have := append_comma_split (intStr a.i).data hd (comma_not_mem_intStr _) (comma_not_mem_intStr _)
  have hi : a.i = b.i := by
    apply intStr_inj
    cases hia : intStr a.i with | mk d1 =>
    cases hib : intStr b.i with | mk d2 =>
    have h2 := this.1
    rw [hia, hib] at h2
    exact congrArg String.mk (by simpa using h2)
  have hj : a.j = b.j := by
    apply intStr_inj
    cases hia : intStr a.j with | mk d1 =>
    cases hib : intStr b.j with | mk d2 =>
    have h2 := this.2
    rw [hia, hib] at h2
    exact congrArg String.mk (by simpa using h2)
  cases a; cases b; simp_all

theorem valKey_data (v : ℤ) : (valKey v).data = 'v' :: 'a' :: 'l' :: '-' :: (intStr v).data := by
  show (("val-" : String) ++ intStr v).data = _
  rw [string_data_append]
  rfl

theorem coordKey_ne_valKey (c : GridCoord) (v : ℤ) : c.toString ≠ valKey v := by
  intro h
  have hd : c.toString.data = (valKey v).data := by rw [h]
  rw [coordKey_data, valKey_data] at hd
  rcases hh : (intStr c.i).data with _ | ⟨hc, rest⟩
  · exact intStr_ne_nil c.i hh
  · rw [hh] at hd
    have hhead : hc = 'v' := (List.cons.injEq _ _ _ _ ▸ hd).1
    have hm : hc ∈ (intStr c.i).data := by rw [hh]; exact List.mem_cons_self _ _
    rcases intStr_chars c.i hc hm with ⟨h1, h2⟩ | h3
    · rw [hhead] at h1 h2; revert h1 h2; decide
    · rw [hhead] at h3; revert h3; decide

theorem valKey_inj {v w : ℤ} (h : valKey v = valKey w) : v = w := by
  have hd : (valKey v).data = (valKey w).data := by rw [h]
  rw [valKey_data, valKey_data] at hd
  apply intStr_inj
  cases hia : intStr v with | mk d1 =>
  cases hib : intStr w with | mk d2 =>
  rw [hia, hib] at hd
  exact congrArg String.mk (by simpa using hd)

/-! ### Properties of the map model -/

section MapLemmas

variable {α : Type}

@[simp] theorem mget_nil (k : String) : mget ([] : List (String × α)) k = none := rfl

@[simp] theorem mget_mset_self (m : List (String × α)) (k : String) (v : α) :
    mget (mset m k v) k = some v := by
  induction m with
  | nil => simp [mget, mset]
  | cons p rest ih =>
    by_cases h : p.1 = k
    · simp [mget, mset, h]
    · simp [mget, mset, h, ih]

theorem mget_mset_ne (m : List (String × α)) {k k₂ : String} (v : α) (h : k ≠ k₂) :
    mget (mset m k v) k₂ = mget m k₂ := by
  induction m with
  | nil => simp [mget, mset, h]
  | cons p rest ih =>
    by_cases hp : p.1 = k
    · have hp₂ : ¬ p.1 = k₂ := by rw [hp]; exact h
      simp [mget, mset, hp, hp₂, h]
    · by_cases hp₂ : p.1 = k₂
      · have hkk : ¬ (k₂ = k) := fun hc => h hc.symm
        simp [mget, mset, hp, hp₂, hkk]
      · simp [mget, mset, hp, hp₂, ih]

theorem mget_mdel_ne (m : List (String × α)) {k k₂ : String} (h : k ≠ k₂) :
    mget (mdel m k) k₂ = mget m k₂ := by
  induction m with
  | nil => simp [mdel]
  | cons p rest ih =>
    by_cases hp : p.1 = k
    · simp [mget, mdel, hp, h]
    · by_cases hp₂ : p.1 = k₂
      · have hkk : ¬ (k₂ = k) := fun hc => h hc.symm
        simp [mget, mdel, hp, hp₂, hkk]
      · simp [mget, mdel, hp, hp₂, ih]

theorem mget_eq_none_of_not_mem (m : List (String × α)) {k : String} (h : k ∉ mkeys m) :
    mget m k = none := by
  induction m with
  | nil => rfl
  | cons p rest ih =>
    have hne : p.1 ≠ k := fun hc => h (by rw [← hc]; exact List.mem_cons_self _ _)
    have : k ∉ mkeys rest := fun hc => h (List.mem_cons_of_mem _ hc)
    simp [mget, hne, ih this]

theorem mem_mkeys_of_mget {m : List (String × α)} {k : String} {v : α}
    (h : mget m k = some v) : k ∈ mkeys m := by
  by_contra hc
  rw [mget_eq_none_of_not_mem m hc] at h
  exact Option.noConfusion h

theorem mget_mdel_self (m : List (String × α)) {k : String} (h : (mkeys m).Nodup) :
    mget (mdel m k) k = none := by
  induction m with
  | nil => rfl
  | cons p rest ih =>
    rcases List.nodup_cons.mp h with ⟨hp, hrest⟩
    by_cases hpk : p.1 = k
    · rw [mdel, if_pos hpk]
      rw [← hpk]
      exact mget_eq_none_of_not_mem rest hp
    · simp [mdel, mget, hpk, ih hrest]

theorem mset_eq_append (m : List (String × α)) {k : String} (v : α)
    (h : mget m k = none) : mset m k v = m ++ [(k, v)] := by
  induction m with
  | nil => rfl
  | cons p rest ih =>
    rw [mget] at h
    by_cases hp : p.1 = k
    · rw [if_pos hp] at h; exact Option.noConfusion h
    · rw [if_neg hp] at h
      rw [mset, if_neg hp, ih h]
      rfl

theorem mget_append_left {m₁ m₂ : List (String × α)} {k : String} {v : α}
    (h : mget m₁ k = some v) : mget (m₁ ++ m₂) k = some v := by
  induction m₁ with
  | nil => exact Option.noConfusion h
  | cons p rest ih =>
    rw [mget] at h
    by_cases hp : p.1 = k
    · rw [List.cons_append, mget, if_pos hp]
      rwa [if_pos hp] at h
    · rw [List.cons_append, mget, if_neg hp]
      rw [if_neg hp] at h
      exact ih h

theorem mget_append_right {m₁ : List (String × α)} (m₂ : List (String × α)) {k : String}
    (h : mget m₁ k = none) : mget (m₁ ++ m₂) k = mget m₂ k := by
  induction m₁ with
  | nil => rfl
  | cons p rest ih =>
    rw [mget] at h
    by_cases hp : p.1 = k
    · rw [if_pos hp] at h; exact Option.noConfusion h
    · rw [if_neg hp] at h
      rw [List.cons_append, mget, if_neg hp]
      exact ih h

theorem mdel_sublist (m : List (String × α)) (k : String) : (mdel m k).Sublist m := by
  induction m with
  | nil => simp [mdel]
  | cons p rest ih =>
    by_cases hp : p.1 = k
    · rw [mdel, if_pos hp]
      exact List.Sublist.cons _ (List.Sublist.refl _)
    · rw [mdel, if_neg hp]
      exact ih.cons₂ _

theorem mget_isSome_of_mem_mkeys {m : List (String × α)} {k : String}
    (h : k ∈ mkeys m) : (mget m k).isSome := by
  induction m with
  | nil => simp [mkeys] at h
  | cons p rest ih =>
    by_cases hp : p.1 = k
    · simp [mget, hp]
    · rw [mget, if_neg hp]
      apply ih
      rcases List.mem_cons.mp h with hh | hh
      · exact absurd hh.symm hp
      · exact hh

theorem mkeys_mset_of_mget_some {m : List (String × α)} {k : String} {v' : α} (v : α)
    (h : mget m k = some v') : mkeys (mset m k v) = mkeys m := by
  induction m with
  | nil => exact Option.noConfusion h
  | cons p rest ih =>
    rw [mget] at h
    by_cases hp : p.1 = k
    · rw [mset, if_pos hp]
      simp [mkeys, hp]
    · rw [if_neg hp] at h
      rw [mset, if_neg hp]
      show p.1 :: mkeys (mset rest k v) = p.1 :: mkeys rest
      rw [ih h]

theorem nodup_mkeys_mset (m : List (String × α)) (k : String) (v : α)
    (h : (mkeys m).Nodup) : (mkeys (mset m k v)).Nodup := by
  rcases hg : mget m k with _ | v'
  · have hk : k ∉ mkeys m := by
      intro hc
      have := mget_isSome_of_mem_mkeys hc
      rw [hg] at this
      exact Bool.noConfusion this
    have hmk : mkeys (m ++ [(k, v)]) = mkeys m ++ [k] := by simp [mkeys]
    rw [mset_eq_append m v hg, hmk, List.nodup_append]
    exact ⟨h, List.nodup_singleton _,
      fun a ha hb => hk (by rwa [List.mem_singleton.mp hb] at ha)⟩
  · rw [mkeys_mset_of_mget_some v hg]
    exact h

theorem nodup_mkeys_mdel (m : List (String × α)) (k : String)
    (h : (mkeys m).Nodup) : (mkeys (mdel m k)).Nodup :=
  h.sublist ((mdel_sublist m k).map Prod.fst)

end MapLemmas

/-! ### Behavior of the individual operations -/

@[simp] theorem getKey_eq (c : GridCoord) : TokenGrid.getKey c = c.toString := rfl

section OpLemmas

variable (luck : String → ℚ) (config : GameConfig)

theorem gct_modifiedCells (g : TokenGrid) (v : ℤ) :
    ((g.getOrCreateToken v).2).modifiedCells = g.modifiedCells := by
  rcases h : mget g.tokens (valKey v) with _ | t <;>
    simp [TokenGrid.getOrCreateToken, h]

theorem gct_tokens_ne (g : TokenGrid) (v : ℤ) {k : String} (hk : k ≠ valKey v) :
    mget ((g.getOrCreateToken v).2).tokens k = mget g.tokens k := by
  rcases h : mget g.tokens (valKey v) with _ | t <;>
    simp [TokenGrid.getOrCreateToken, h]
  exact mget_mset_ne _ _ (fun hc => hk hc.symm)

theorem gct_tokens_self (g : TokenGrid) (v : ℤ) :
    mget ((g.getOrCreateToken v).2).tokens (valKey v) = some (g.getOrCreateToken v).1 := by
  rcases h : mget g.tokens (valKey v) with _ | t <;>
    simp [TokenGrid.getOrCreateToken, h]

/-- Claim C7: for every integer value, calling `getOrCreateToken` twice on
the same store returns the same shared token and leaves the store
unchanged (so at most one token per value is ever created through the
cache); the cache keeps that token under its value key, and in reachable
states its value is the requested one. -/
theorem gct_eq_of_cached {g : TokenGrid} {v : ℤ} {t : Token}
    (h : mget g.tokens (valKey v) = some t) : g.getOrCreateToken v = (t, g) := by
  unfold TokenGrid.getOrCreateToken
  rw [h]

theorem saveMemento_tokens (g : TokenGrid) (c : GridCoord) (tok : Option Token) :
    (g.saveMemento c tok).tokens = g.tokens := rfl

theorem saveMemento_mget_self (g : TokenGrid) (c : GridCoord) (tok : Option Token) :
    mget (g.saveMemento c tok).modifiedCells c.toString = some (tok.map Token.value) := by
  simp [TokenGrid.saveMemento]

theorem saveMemento_mget_ne (g : TokenGrid) {c : GridCoord} (tok : Option Token)
    {k : String} (hk : k ≠ c.toString) :
    mget (g.saveMemento c tok).modifiedCells k = mget g.modifiedCells k := by
  simp [TokenGrid.saveMemento]
  exact mget_mset_ne _ _ (fun hc => hk hc.symm)

theorem getOrSpawn_of_memento_empty {g : TokenGrid} {c : GridCoord}
    (h : mget g.modifiedCells c.toString = some none) :
    TokenGrid.getOrSpawn luck config g c = (none, g) := by
  simp [TokenGrid.getOrSpawn, TokenGrid.loadMemento, h]

theorem getOrSpawn_of_memento_val {g : TokenGrid} {c : GridCoord} {v : ℤ}
    (h : mget g.modifiedCells c.toString = some (some v)) :
    TokenGrid.getOrSpawn luck config g c =
      (some (g.getOrCreateToken v).1, (g.getOrCreateToken v).2) := by
  simp [TokenGrid.getOrSpawn, TokenGrid.loadMemento, h]

theorem getOrSpawn_of_position_hit {g : TokenGrid} {c : GridCoord} {t : Token}
    (h : mget g.modifiedCells c.toString = none)
    (ht : mget g.tokens c.toString = some t) :
    TokenGrid.getOrSpawn luck config g c = (some t, g) := by
  simp [TokenGrid.getOrSpawn, TokenGrid.loadMemento, h, ht]

theorem getOrSpawn_of_undecided {g : TokenGrid} {c : GridCoord}
    (h : mget g.modifiedCells c.toString = none)
    (ht : mget g.tokens c.toString = none) :
    TokenGrid.getOrSpawn luck config g c =
      if luck (c.toString ++ ",token") < config.tokenSpawnProbability then
        (some (g.getOrCreateToken (⌊luck (c.toString ++ ",value") * 4⌋ + 1)).1,
          ((g.getOrCreateToken (⌊luck (c.toString ++ ",value") * 4⌋ + 1)).2).saveMemento c
            (some (g.getOrCreateToken (⌊luck (c.toString ++ ",value") * 4⌋ + 1)).1))
      else
        (none, g.saveMemento c none) := by
  simp [TokenGrid.getOrSpawn, TokenGrid.loadMemento, h, ht]

end OpLemmas

/-! ### Preservation of the state invariants -/

theorem stateInv_fresh : StateInv TokenGrid.fresh := by
  refine ⟨fun v t h => ?_, fun c t h => ?_, by simp [TokenGrid.fresh, mkeys], by simp [TokenGrid.fresh, mkeys]⟩ <;>
    exact Option.noConfusion h

theorem gct_val {g : TokenGrid} (v : ℤ) (hval : ValInvP g) :
    ((g.getOrCreateToken v).1).value = v := by
  rcases h : mget g.tokens (valKey v) with _ | t
  · simp [TokenGrid.getOrCreateToken, h]
  · simp [TokenGrid.getOrCreateToken, h]
    exact hval v t h

theorem valInv_gct {g : TokenGrid} (v : ℤ) (hval : ValInvP g) :
    ValInvP (g.getOrCreateToken v).2 := by
  intro w t' hw
  by_cases hvw : w = v
  · subst hvw
    rw [gct_tokens_self] at hw
    have hv := gct_val w hval
    rw [Option.some_inj.mp hw] at hv
    exact hv
  · rw [gct_tokens_ne g v (fun hc => hvw (valKey_inj hc.symm).symm)] at hw
    exact hval w t' hw

theorem coordInv_gct {g : TokenGrid} (v : ℤ) (hco : CoordInvP g) :
    CoordInvP (g.getOrCreateToken v).2 := by
  intro c t' hc
  rw [gct_tokens_ne g v (coordKey_ne_valKey c v)] at hc
  rw [gct_modifiedCells]
  exact hco c t' hc

theorem nodup_gct {g : TokenGrid} (v : ℤ) (hnd : NodupP g) :
    NodupP (g.getOrCreateToken v).2 := by
  rcases h : mget g.tokens (valKey v) with _ | t <;>
    simp [TokenGrid.getOrCreateToken, h]
  · exact ⟨nodup_mkeys_mset _ _ _ hnd.1, hnd.2⟩
  · exact hnd

theorem stateInv_gct {g : TokenGrid} (v : ℤ) (hinv : StateInv g) :
    StateInv (g.getOrCreateToken v).2 :=
  ⟨valInv_gct v hinv.1, coordInv_gct v hinv.2.1, nodup_gct v hinv.2.2⟩

theorem stateInv_place {g : TokenGrid} (c : GridCoord) (t : Token) (hinv : StateInv g) :
    StateInv (g.placeToken c t) := by
  obtain ⟨hval, hco, hnd⟩ := hinv
  refine ⟨?_, ?_, ?_, ?_⟩
  · intro v t' hv
    have hne : c.toString ≠ valKey v := coordKey_ne_valKey c v
    rw [show (g.placeToken c t).tokens = mset g.tokens c.toString t from rfl,
      mget_mset_ne _ _ hne] at hv
    exact hval v t' hv
  · intro c' t' hc'
    by_cases hk : c'.toString = c.toString
    · rw [show (g.placeToken c t).tokens = mset g.tokens c.toString t from rfl, hk,
        mget_mset_self] at hc'
      rw [show (g.placeToken c t).modifiedCells
          = mset g.modifiedCells c.toString (some t.value) from rfl, hk, mget_mset_self]
      rw [← Option.some_inj.mp hc']
    · rw [show (g.placeToken c t).tokens = mset g.tokens c.toString t from rfl,
        mget_mset_ne _ _ (fun hc => hk hc.symm)] at hc'
      rw [show (g.placeToken c t).modifiedCells
          = mset g.modifiedCells c.toString (some t.value) from rfl,
        mget_mset_ne _ _ (fun hc => hk hc.symm)]
      exact hco c' t' hc'
  · exact nodup_mkeys_mset _ _ _ hnd.1
  · exact nodup_mkeys_mset _ _ _ hnd.2

theorem stateInv_remove {g : TokenGrid} (c : GridCoord) (hinv : StateInv g) :
    StateInv (g.removeToken c).2 := by
  obtain ⟨hval, hco, hnd⟩ := hinv
  refine ⟨?_, ?_, ?_, ?_⟩
  · intro v t' hv
    have hne : c.toString ≠ valKey v := coordKey_ne_valKey c v
    rw [show ((g.removeToken c).2).tokens = mdel g.tokens c.toString from rfl,
      mget_mdel_ne _ hne] at hv
    exact hval v t' hv
  · intro c' t' hc'
    by_cases hk : c'.toString = c.toString
    · rw [show ((g.removeToken c).2).tokens = mdel g.tokens c.toString from rfl, hk,
        mget_mdel_self _ hnd.1] at hc'
      exact Option.noConfusion hc'
    · rw [show ((g.removeToken c).2).tokens = mdel g.tokens c.toString from rfl,
        mget_mdel_ne _ (fun hc => hk hc.symm)] at hc'
      rw [show ((g.removeToken c).2).modifiedCells
          = mset g.modifiedCells c.toString none from rfl,
        mget_mset_ne _ _ (fun hc => hk hc.symm)]
      exact hco c' t' hc'
  · exact nodup_mkeys_mdel _ _ hnd.1
  · exact nodup_mkeys_mset _ _ _ hnd.2

theorem stateInv_saveMemento_of_no_token {g : TokenGrid} (c : GridCoord) (tok : Option Token)
    (htok : mget g.tokens c.toString = none) (hinv : StateInv g) :
    StateInv (g.saveMemento c tok) := by
  obtain ⟨hval, hco, hnd⟩ := hinv
  refine ⟨hval, ?_, hnd.1, nodup_mkeys_mset _ _ _ hnd.2⟩
  intro c' t' hc'
  rw [show (g.saveMemento c tok).tokens = g.tokens from rfl] at hc'
  by_cases hk : c'.toString = c.toString
  · rw [hk, htok] at hc'
    exact Option.noConfusion hc'
  · rw [show (g.saveMemento c tok).modifiedCells
        = mset g.modifiedCells c.toString (tok.map Token.value) from rfl,
      mget_mset_ne _ _ (fun hc => hk hc.symm)]
    exact hco c' t' hc'

theorem stateInv_getOrSpawn (luck : String → ℚ) (config : GameConfig) {g : TokenGrid}
    (c : GridCoord) (hinv : StateInv g) :
    StateInv (TokenGrid.getOrSpawn luck config g c).2 := by
  rcases hm : mget g.modifiedCells c.toString with _ | mv
  · rcases ht : mget g.tokens c.toString with _ | t
    · rw [getOrSpawn_of_undecided luck config hm ht]
      by_cases hroll : luck (c.toString ++ ",token") < config.tokenSpawnProbability
      · rw [if_pos hroll]
        have hg1 := stateInv_gct (⌊luck (c.toString ++ ",value") * 4⌋ + 1) hinv
        apply stateInv_saveMemento_of_no_token _ _ _ hg1
        rw [gct_tokens_ne g _ (coordKey_ne_valKey c _)]
        exact ht
      · rw [if_neg hroll]
        exact stateInv_saveMemento_of_no_token _ _ ht hinv
    · rw [getOrSpawn_of_position_hit luck config hm ht]
      exact hinv
  · rcases mv with _ | v
    · rw [getOrSpawn_of_memento_empty luck config hm]
      exact hinv
    · rw [getOrSpawn_of_memento_val luck config hm]
      exact stateInv_gct v hinv

theorem stateInv_runOp (luck : String → ℚ) (config : GameConfig) {g : TokenGrid}
    (op : Op) (hinv : StateInv g) : StateInv (runOp luck config g op) := by
  cases op with
  | query c => exact stateInv_getOrSpawn luck config c hinv
  | place c t => exact stateInv_place c t hinv
  | remove c => exact stateInv_remove c hinv
  | create v => exact stateInv_gct v hinv

theorem stateInv_runOps (luck : String → ℚ) (config : GameConfig) {g : TokenGrid}
    (ops : List Op) (hinv : StateInv g) : StateInv (runOps luck config g ops) := by
  induction ops generalizing g with
  | nil => exact hinv
  | cons op rest ih => exact ih (stateInv_runOp luck config op hinv)

theorem stateInv_reachable {luck : String → ℚ} {config : GameConfig} {g : TokenGrid}
    (h : Reachable luck config g) : StateInv g := by
  obtain ⟨ops, rfl⟩ := h
  exact stateInv_runOps luck config ops stateInv_fresh

/-! ### Value-level results of `getOrSpawn` -/

section ValueLemmas

variable (luck : String → ℚ) (config : GameConfig)

theorem getOrSpawnVal_of_memento {g : TokenGrid} {c : GridCoord} {mv : Option ℤ}
    (hm : mget g.modifiedCells c.toString = some mv) (hval : ValInvP g) :
    getOrSpawnVal luck config g c = mv ∧
      (TokenGrid.getOrSpawn luck config g c).2.modifiedCells = g.modifiedCells := by
  rcases mv with _ | v
  · rw [getOrSpawnVal, getOrSpawn_of_memento_empty luck config hm]
    exact ⟨rfl, rfl⟩
  · rw [getOrSpawnVal, getOrSpawn_of_memento_val luck config hm]
    exact ⟨by simp [gct_val v hval], gct_modifiedCells g v⟩

theorem getOrSpawnVal_of_undecided {g : TokenGrid} {c : GridCoord}
    (hm : mget g.modifiedCells c.toString = none)
    (ht : mget g.tokens c.toString = none) (hval : ValInvP g) :
    getOrSpawnVal luck config g c =
      if luck (c.toString ++ ",token") < config.tokenSpawnProbability then
        some (⌊luck (c.toString ++ ",value") * 4⌋ + 1)
      else none := by
  rw [getOrSpawnVal, getOrSpawn_of_undecided luck config hm ht]
  by_cases hroll : luck (c.toString ++ ",token") < config.tokenSpawnProbability
  · rw [if_pos hroll, if_pos hroll]
    simp [gct_val _ hval]
  · rw [if_neg hroll, if_neg hroll]
    rfl

theorem mget_modCells_after_getOrSpawn {g : TokenGrid} {c : GridCoord}
    (hinv : StateInv g) :
    mget ((TokenGrid.getOrSpawn luck config g c).2).modifiedCells c.toString
      = some (getOrSpawnVal luck config g c) := by
  rcases hm : mget g.modifiedCells c.toString with _ | mv
  · rcases ht : mget g.tokens c.toString with _ | t
    · rw [getOrSpawnVal, getOrSpawn_of_undecided luck config hm ht]
      by_cases hroll : luck (c.toString ++ ",token") < config.tokenSpawnProbability
      · rw [if_pos hroll]
        simp [TokenGrid.saveMemento]
      · rw [if_neg hroll]
        simp [TokenGrid.saveMemento]
    · exfalso
      have := hinv.2.1 c t ht
      rw [hm] at this
      exact Option.noConfusion this
  · have h1 := getOrSpawnVal_of_memento luck config hm hinv.1
    rw [h1.2, h1.1, hm]

theorem getOrSpawn_modCells_ne {g : TokenGrid} {c' : GridCoord} {k : String}
    (hk : k ≠ c'.toString) :
    mget ((TokenGrid.getOrSpawn luck config g c').2).modifiedCells k
      = mget g.modifiedCells k := by
  rcases hm : mget g.modifiedCells c'.toString with _ | mv
  · rcases ht : mget g.tokens c'.toString with _ | t
    · rw [getOrSpawn_of_undecided luck config hm ht]
      by_cases hroll : luck (c'.toString ++ ",token") < config.tokenSpawnProbability
      · rw [if_pos hroll]
        show mget (mset _ c'.toString _) k = _
        rw [mget_mset_ne _ _ (fun hc => hk hc.symm)]
        exact congrArg (fun m => mget m k) (gct_modifiedCells g _)
      · rw [if_neg hroll]
        show mget (mset _ c'.toString _) k = _
        exact mget_mset_ne _ _ (fun hc => hk hc.symm)
    · rw [getOrSpawn_of_position_hit luck config hm ht]
  · rcases mv with _ | v
    · rw [getOrSpawn_of_memento_empty luck config hm]
    · rw [getOrSpawn_of_memento_val luck config hm]
      exact congrArg (fun m => mget m k) (gct_modifiedCells g v)

theorem toString_ne_of_ne {a b : GridCoord} (h : a ≠ b) : a.toString ≠ b.toString :=
  fun hc => h (coordKey_inj hc)

theorem mget_modCells_runOp_stable {g : TokenGrid} {c : GridCoord} {mv : Option ℤ}
    {op : Op} (hav : AvoidsMut c op) (hinv : StateInv g)
    (hm : mget g.modifiedCells c.toString = some mv) :
    mget (runOp luck config g op).modifiedCells c.toString = some mv := by
  cases op with
  | query c' =>
    by_cases hk : c.toString = c'.toString
    · have hc : c = c' := coordKey_inj hk
      subst hc
      have := (getOrSpawnVal_of_memento luck config hm hinv.1).2
      show mget ((TokenGrid.getOrSpawn luck config g c).2).modifiedCells c.toString = some mv
      rw [this, hm]
    · show mget ((TokenGrid.getOrSpawn luck config g c').2).modifiedCells c.toString = some mv
      rw [getOrSpawn_modCells_ne luck config hk, hm]
  | place c' t =>
    have hk : c'.toString ≠ c.toString := toString_ne_of_ne hav
    show mget (mset g.modifiedCells c'.toString (some t.value)) c.toString = some mv
    rw [mget_mset_ne _ _ hk, hm]
  | remove c' =>
    have hk : c'.toString ≠ c.toString := toString_ne_of_ne hav
    show mget (mset g.modifiedCells c'.toString none) c.toString = some mv
    rw [mget_mset_ne _ _ hk, hm]
  | create v =>
    show mget ((g.getOrCreateToken v).2).modifiedCells c.toString = some mv
    rw [gct_modifiedCells, hm]

theorem mget_modCells_runOps_stable {g : TokenGrid} {c : GridCoord} {mv : Option ℤ}
    {ops : List Op} (hav : ∀ op ∈ ops, AvoidsMut c op) (hinv : StateInv g)
    (hm : mget g.modifiedCells c.toString = some mv) :
    mget (runOps luck config g ops).modifiedCells c.toString = some mv := by
  induction ops generalizing g with
  | nil => exact hm
  | cons op rest ih =>
    exact ih (fun o ho => hav o (List.mem_cons_of_mem _ ho))
      (stateInv_runOp luck config op hinv)
      (mget_modCells_runOp_stable luck config (hav op (List.mem_cons_self _ _)) hinv hm)

end ValueLemmas

/-! ### Round-trip of the serialized memento map -/

theorem fromJSON_go (m : List (String × Option ℤ)) :
    ∀ acc : List (String × Option ℤ), (∀ k ∈ mkeys m, mget acc k = none) →
    (mkeys m).Nodup →
    (SerializableGrid.toJSON m).foldl (fun acc item => mset acc item.coord item.tokenValue) acc
      = acc ++ m := by
  induction m with
  | nil => intro acc _ _; simp [SerializableGrid.toJSON]
  | cons p rest ih =>
    intro acc hdis hnd
    have hp : mget acc p.1 = none := hdis p.1 (List.mem_cons_self _ _)
    have hstep : mset acc p.1 p.2 = acc ++ [p] := by
      rw [mset_eq_append acc p.2 hp]
    rcases List.nodup_cons.mp hnd with ⟨hp1, hrest⟩
    have hside : ∀ k ∈ mkeys rest, mget (acc ++ [p]) k = none := by
      intro k hk
      have h1 : mget acc k = none := hdis k (List.mem_cons_of_mem _ hk)
      rw [mget_append_right _ h1]
      have hne : p.1 ≠ k := fun hc => hp1 (hc ▸ hk)
      simp [mget, hne]
    show List.foldl _ (mset acc p.1 p.2) (SerializableGrid.toJSON rest) = acc ++ p :: rest
    rw [hstep, ih (acc ++ [p]) hside hrest]
    simp

theorem fromJSON_toJSON (m : List (String × Option ℤ)) (h : (mkeys m).Nodup) :
    SerializableGrid.fromJSON (SerializableGrid.toJSON m) = m := by
  have := fromJSON_go m [] (fun k _ => rfl) h
  simpa [SerializableGrid.fromJSON] using this

/-! ### Stability of the spawn decision across query histories -/

section Stability

variable (luck : String → ℚ) (config : GameConfig)

theorem tokens_none_of_memento_none {g : TokenGrid} {c : GridCoord}
    (hinv : StateInv g) (hm : mget g.modifiedCells c.toString = none) :
    mget g.tokens c.toString = none := by
  rcases hh : mget g.tokens c.toString with _ | t
  · rfl
  · exfalso
    have := hinv.2.1 c t hh
    rw [hm] at this
    exact Option.noConfusion this

theorem getOrSpawnVal_eq_fresh {g : TokenGrid} {c : GridCoord}
    (hinv : StateInv g) (hm : mget g.modifiedCells c.toString = none) :
    getOrSpawnVal luck config g c = freshVal luck config c := by
  rw [getOrSpawnVal_of_undecided luck config hm
    (tokens_none_of_memento_none hinv hm) hinv.1]
  rw [freshVal, getOrSpawnVal_of_undecided luck config
    (show mget TokenGrid.fresh.modifiedCells c.toString = none from rfl)
    (show mget TokenGrid.fresh.tokens c.toString = none from rfl) stateInv_fresh.1]

theorem memOK_query_step {g : TokenGrid} {c : GridCoord} (c' : GridCoord)
    (hinv : StateInv g) (hok : MemOK luck config c g) :
    MemOK luck config c (TokenGrid.getOrSpawn luck config g c').2 := by
  by_cases hk : c.toString = c'.toString
  · have hc : c = c' := coordKey_inj hk
    subst hc
    rcases hok with hm | hm
    · right
      rw [mget_modCells_after_getOrSpawn luck config hinv,
        getOrSpawnVal_eq_fresh luck config hinv hm]
    · right
      rw [(getOrSpawnVal_of_memento luck config hm hinv.1).2, hm]
  · rcases hok with hm | hm
    · left
      rw [getOrSpawn_modCells_ne luck config hk, hm]
    · right
      rw [getOrSpawn_modCells_ne luck config hk, hm]

theorem memOK_query_run {c : GridCoord} : ∀ (qs : List GridCoord) (g : TokenGrid),
    StateInv g → MemOK luck config c g →
    MemOK luck config c (runOps luck config g (qs.map Op.query)) := by
  intro qs
  induction qs with
  | nil => intro g _ hok; exact hok
  | cons q rest ih =>
    intro g hinv hok
    exact ih _ (stateInv_getOrSpawn luck config q hinv)
      (memOK_query_step luck config q hinv hok)

theorem getOrSpawnVal_of_memOK {g : TokenGrid} {c : GridCoord}
    (hinv : StateInv g) (hok : MemOK luck config c g) :
    getOrSpawnVal luck config g c = freshVal luck config c := by
  rcases hok with hm | hm
  · exact getOrSpawnVal_eq_fresh luck config hinv hm
  · exact (getOrSpawnVal_of_memento luck config hm hinv.1).1

end Stability

/-! ### The claims -/

/-- Claim C10: in every reachable `TokenGrid` state, every coordinate key
present in the internal shared token map has a memento entry recording that
token's value; consequently the `getOrSpawn` fallback branch that returns
the position entry when no memento exists is unreachable — whenever a
coordinate has no memento, the token map has no entry under its key either,
so each query is decided by the memento or by the generator alone. -/
theorem claim10_memento_covers_tokens (luck : String → ℚ) (config : GameConfig)
    (g : TokenGrid) (hre : Reachable luck config g) :
    (∀ (c : GridCoord) (t : Token), mget g.tokens c.toString = some t →
      mget g.modifiedCells c.toString = some (some t.value)) ∧
    (∀ c : GridCoord, mget g.modifiedCells c.toString = none →
      mget g.tokens c.toString = none) := by
  have hinv := stateInv_reachable hre
  exact ⟨hinv.2.1, fun c hm => tokens_none_of_memento_none hinv hm⟩

/-- Claim C10 witness: after placing a token of value 2 at (0,0) the token
map holds it under the coordinate key and the memento records value 2. -/
theorem claim10_witness :
    Reachable constZeroHash probOneConfig (TokenGrid.fresh.placeToken ⟨0, 0⟩ ⟨2⟩) ∧
    mget (TokenGrid.fresh.placeToken ⟨0, 0⟩ ⟨2⟩).modifiedCells
      (GridCoord.mk 0 0).toString = some (some 2) :=
  ⟨⟨[Op.place ⟨0, 0⟩ ⟨2⟩], rfl⟩,
    (claim10_memento_covers_tokens constZeroHash probOneConfig _
      ⟨[Op.place ⟨0, 0⟩ ⟨2⟩], rfl⟩).1 ⟨0, 0⟩ ⟨2⟩ (by decide)⟩

/-- Claim C1 counterexample: with the hash constantly 0 and spawn
probability 1, `getOrSpawn` at (0,0) on a fresh grid returns the spawned
token of value 1 and writes a `Spawned(1)` memento, yet an immediately
following `removeToken` returns `null` instead of that token — the token
map holds spawned tokens only under flyweight keys, never under the
coordinate key that `removeToken` reads. -/
theorem claim1_counterexample :
    (TokenGrid.getOrSpawn constZeroHash probOneConfig TokenGrid.fresh ⟨0, 0⟩).1
      = some ⟨1⟩ ∧
    mget (TokenGrid.getOrSpawn constZeroHash probOneConfig TokenGrid.fresh ⟨0, 0⟩).2.modifiedCells
      (GridCoord.mk 0 0).toString = some (some 1) ∧
    (TokenGrid.removeToken
      (TokenGrid.getOrSpawn constZeroHash probOneConfig TokenGrid.fresh ⟨0, 0⟩).2 ⟨0, 0⟩).1
      = none := by
  rw [getOrSpawn_of_undecided constZeroHash probOneConfig
    (show mget TokenGrid.fresh.modifiedCells (GridCoord.mk 0 0).toString = none from rfl)
    (show mget TokenGrid.fresh.tokens (GridCoord.mk 0 0).toString = none from rfl)]
  rw [if_pos (by norm_num [constZeroHash, probOneConfig])]
  have hv : (⌊constZeroHash ((GridCoord.mk 0 0).toString ++ ",value") * 4⌋ + 1 : ℤ) = 1 := by
    norm_num [constZeroHash]
  rw [hv]
  refine ⟨rfl, by decide, by decide⟩

/-- Claim C1 (amended): `removeToken` returns the token map's entry under
the coordinate key — the last token explicitly placed at the cell via
`placeToken` — not the cell's memento content: after a `placeToken` it
returns that token, while for a cell occupied only by a generator spawn
(recorded in the memento alone) it returns absent.  In all cases it then
records an Empty memento and deletes the position entry, and removing again
returns absent with the cell still Empty. -/
theorem claim1_remove_amended (luck : String → ℚ) (config : GameConfig)
    (g : TokenGrid) (c : GridCoord) (t : Token) (v : ℤ)
    (hre : Reachable luck config g) :
    ((g.placeToken c t).removeToken c).1 = some t ∧
    mget (g.removeToken c).2.modifiedCells c.toString = some none ∧
    mget (g.removeToken c).2.tokens c.toString = none ∧
    (((g.removeToken c).2).removeToken c).1 = none ∧
    (mget g.modifiedCells c.toString = some (some v) →
      mget g.tokens c.toString = none → (g.removeToken c).1 = none) := by
  have hinv := stateInv_reachable hre
  have h3 : mget (g.removeToken c).2.tokens c.toString = none := by
    show mget (mdel g.tokens c.toString) c.toString = none
    exact mget_mdel_self _ hinv.2.2.1
  refine ⟨?_, ?_, h3, h3, fun _ ht => ht⟩
  · show mget (mset g.tokens c.toString t) c.toString = some t
    exact mget_mset_self _ _ _
  · show mget (mset g.modifiedCells c.toString none) c.toString = some none
    exact mget_mset_self _ _ _

/-- Claim C1 witness: on the fresh grid, place then remove at (0,0)
returns the placed token. -/
theorem claim1_witness :
    Reachable constZeroHash probOneConfig TokenGrid.fresh ∧
    ((TokenGrid.fresh.placeToken ⟨0, 0⟩ ⟨2⟩).removeToken ⟨0, 0⟩).1 = some ⟨2⟩ :=
  ⟨⟨[], rfl⟩,
    (claim1_remove_amended constZeroHash probOneConfig TokenGrid.fresh ⟨0, 0⟩ ⟨2⟩ 1
      ⟨[], rfl⟩).1⟩

/-- Claim C2: once a memento exists for a coordinate in a reachable state,
`getOrSpawn` there no longer consults the generator — the returned token
and the resulting store are identical for every hash function — and after
any further operations that are not a `placeToken`/`removeToken` at that
coordinate, every query still returns exactly the memento's value (or
absence), hence the same result as the first call. -/
theorem claim2_memento_authoritative (luck : String → ℚ) (config : GameConfig)
    (g : TokenGrid) (c : GridCoord) (mv : Option ℤ) (ops : List Op)
    (hre : Reachable luck config g)
    (hmv : mget g.modifiedCells c.toString = some mv)
    (hops : ∀ op ∈ ops, AvoidsMut c op) :
    (∀ l₁ l₂ : String → ℚ,
      TokenGrid.getOrSpawn l₁ config g c = TokenGrid.getOrSpawn l₂ config g c) ∧
    (∀ luck' : String → ℚ, getOrSpawnVal luck' config g c = mv) ∧
    (∀ luck' : String → ℚ,
      getOrSpawnVal luck' config (runOps luck config g ops) c = mv) := by
  have hinv := stateInv_reachable hre
  refine ⟨?_, ?_, ?_⟩
  · intro l₁ l₂
    rcases mv with _ | v
    · rw [getOrSpawn_of_memento_empty l₁ config hmv,
        getOrSpawn_of_memento_empty l₂ config hmv]
    · rw [getOrSpawn_of_memento_val l₁ config hmv,
        getOrSpawn_of_memento_val l₂ config hmv]
  · intro l'
    exact (getOrSpawnVal_of_memento l' config hmv hinv.1).1
  · intro l'
    have hst := mget_modCells_runOps_stable luck config hops hinv hmv
    have hinv2 := stateInv_runOps luck config ops hinv
    exact (getOrSpawnVal_of_memento l' config hst hinv2.1).1

/-- Claim C2 witness: with spawn probability 0, querying (0,0) writes an
Empty memento; after a further query at (1,1) the repeated query at (0,0)
still returns absence. -/
theorem claim2_witness :
    mget (runOps constZeroHash probZeroConfig TokenGrid.fresh
        [Op.query ⟨0, 0⟩]).modifiedCells (GridCoord.mk 0 0).toString = some none ∧
    getOrSpawnVal constZeroHash probZeroConfig
      (runOps constZeroHash probZeroConfig
        (runOps constZeroHash probZeroConfig TokenGrid.fresh [Op.query ⟨0, 0⟩])
        [Op.query ⟨1, 1⟩]) ⟨0, 0⟩ = none :=
  ⟨by decide,
    (claim2_memento_authoritative constZeroHash probZeroConfig _ ⟨0, 0⟩ none
      [Op.query ⟨1, 1⟩] ⟨[Op.query ⟨0, 0⟩], rfl⟩ (by decide)
      (fun op hop => by
        rcases List.mem_singleton.mp hop with rfl
        trivial)).2.2 constZeroHash⟩

/-- Claim C3 counterexample: `getOrCreateToken 64` (a public operation, also
reached through every spawn) yields a reachable state whose memento map is
empty while `hasWinningToken 64` is already true: the claimed equivalence
with memento contents fails, because `hasWinningToken` scans the internal
token map (including flyweight residue), not the mementos. -/
theorem claim3_counterexample :
    Reachable constZeroHash probOneConfig (TokenGrid.fresh.getOrCreateToken 64).2 ∧
    ¬ (TokenGrid.hasWinningToken (TokenGrid.fresh.getOrCreateToken 64).2 64 = true ↔
        ∃ (k : String) (v : ℤ),
          mget (TokenGrid.fresh.getOrCreateToken 64).2.modifiedCells k = some (some v) ∧
            64 ≤ v) := by
  refine ⟨⟨[Op.create 64], rfl⟩, ?_⟩
  intro hiff
  have h1 : TokenGrid.hasWinningToken (TokenGrid.fresh.getOrCreateToken 64).2 64 = true := by
    decide
  obtain ⟨k, v, hk, _⟩ := hiff.mp h1
  have hmc : mget (TokenGrid.fresh.getOrCreateToken 64).2.modifiedCells k = none := by
    rw [gct_modifiedCells]
    rfl
  rw [hmc] at hk
  exact Option.noConfusion hk

/-- Claim C3 (amended): `hasWinningToken(t)` is true iff some entry of the
internal token map — flyweight tokens ever materialized plus tokens
explicitly placed at coordinate keys — has value at least `t`; the memento
map is not consulted.  The spec's win-detection example is preserved: after
placing a token of value 64, `hasWinningToken 64` is true and
`hasWinningToken 128` is false. -/
theorem claim3_winning_amended :
    (∀ (g : TokenGrid) (w : ℤ), TokenGrid.hasWinningToken g w = true ↔
      ∃ p ∈ g.tokens, w ≤ (Prod.snd p).value) ∧
    TokenGrid.hasWinningToken (TokenGrid.fresh.placeToken ⟨0, 0⟩ ⟨64⟩) 64 = true ∧
    TokenGrid.hasWinningToken (TokenGrid.fresh.placeToken ⟨0, 0⟩ ⟨64⟩) 128 = false := by
  refine ⟨?_, by decide, by decide⟩
  intro g w
  rw [TokenGrid.hasWinningToken, List.any_eq_true]
  constructor
  · rintro ⟨t, ht, hw⟩
    obtain ⟨p, hp, rfl⟩ := List.mem_map.mp ht
    exact ⟨p, hp, of_decide_eq_true hw⟩
  · rintro ⟨p, hp, hw⟩
    exact ⟨p.2, List.mem_map_of_mem _ hp, decide_eq_true hw⟩

/-- Claim C4: for a fixed configuration and a fixed deterministic hash
function, two independently constructed, memento-empty stores give the same
value (or absence) at every coordinate, whatever other coordinates each of
them was asked about before and in whatever order: any two query histories
lead to the same answer at `c` (both equal the fresh store's decision). -/
theorem claim4_determinism (luck : String → ℚ) (config : GameConfig)
    (qs₁ qs₂ : List GridCoord) (c : GridCoord) :
    getOrSpawnVal luck config
        (runOps luck config TokenGrid.fresh (qs₁.map Op.query)) c
      = getOrSpawnVal luck config
        (runOps luck config TokenGrid.fresh (qs₂.map Op.query)) c := by
  have key : ∀ qs : List GridCoord,
      getOrSpawnVal luck config (runOps luck config TokenGrid.fresh (qs.map Op.query)) c
        = freshVal luck config c := by
    intro qs
    have h1 := memOK_query_run luck config (c := c) qs TokenGrid.fresh stateInv_fresh
      (show MemOK luck config c TokenGrid.fresh from Or.inl rfl)
    have h2 := stateInv_runOps luck config (qs.map Op.query) stateInv_fresh
    exact getOrSpawnVal_of_memOK luck config h2 h1
  rw [key qs₁, key qs₂]

/-- Claim C5: round trip.  For any sequence of public operations against a
fresh world, serializing the memento map (`SerializableGrid.toJSON`) and
deserializing it (`SerializableGrid.fromJSON`) reconstructs exactly the
original coordinate-key to token-value-or-absent mapping, and installing it
into a newly constructed grid (as `TokenGame.loadGame` does) yields a world
whose query answers agree with the original at every coordinate:
coordinates with a memento are answered from it identically, and
coordinates without one fall back to the same deterministic generator. -/
theorem claim5_round_trip (luck : String → ℚ) (config : GameConfig)
    (ops : List Op) :
    SerializableGrid.fromJSON
        (SerializableGrid.toJSON
          (TokenGrid.getModifiedCells (runOps luck config TokenGrid.fresh ops)))
      = TokenGrid.getModifiedCells (runOps luck config TokenGrid.fresh ops) ∧
    ∀ c : GridCoord,
      getOrSpawnVal luck config
          (TokenGrid.fresh.setModifiedCells
            (SerializableGrid.fromJSON
              (SerializableGrid.toJSON
                (TokenGrid.getModifiedCells (runOps luck config TokenGrid.fresh ops))))) c
        = getOrSpawnVal luck config (runOps luck config TokenGrid.fresh ops) c := by
  have hinv : StateInv (runOps luck config TokenGrid.fresh ops) :=
    stateInv_runOps luck config ops stateInv_fresh
  have hrt : SerializableGrid.fromJSON
      (SerializableGrid.toJSON
        (TokenGrid.getModifiedCells (runOps luck config TokenGrid.fresh ops)))
      = (runOps luck config TokenGrid.fresh ops).modifiedCells :=
    fromJSON_toJSON _ hinv.2.2.2
  refine ⟨hrt, ?_⟩
  intro c
  rw [show TokenGrid.fresh.setModifiedCells
      (SerializableGrid.fromJSON
        (SerializableGrid.toJSON
          (TokenGrid.getModifiedCells (runOps luck config TokenGrid.fresh ops))))
      = ⟨[], (runOps luck config TokenGrid.fresh ops).modifiedCells⟩ from by
    rw [hrt]
    rfl]
  have hval' : ValInvP (⟨[], (runOps luck config TokenGrid.fresh ops).modifiedCells⟩ : TokenGrid) :=
    fun v t h => Option.noConfusion h
  rcases hm : mget (runOps luck config TokenGrid.fresh ops).modifiedCells c.toString
    with _ | mv
  · rw [getOrSpawnVal_of_undecided luck config (g := ⟨[], _⟩) hm rfl hval']
    rw [getOrSpawnVal_of_undecided luck config hm
      (tokens_none_of_memento_none hinv hm) hinv.1]
  · rw [(getOrSpawnVal_of_memento luck config (g := ⟨[], _⟩) hm hval').1]
    rw [(getOrSpawnVal_of_memento luck config hm hinv.1).1]

/-- Claim C6 counterexample: at a = (0,0), b = (3,1), radius 3, `isWithin`
is true (the Euclidean distance √10 is within the buffered bound 3.3) but
`distanceTo` exceeds 3, so the claimed equivalence
`isWithin(other, r) ↔ distanceTo(other) ≤ r` fails on the code. -/
theorem claim6_counterexample :
    ¬ (GridCoord.isWithin ⟨0, 0⟩ ⟨3, 1⟩ 3 ↔
        GridCoord.distanceTo ⟨0, 0⟩ ⟨3, 1⟩ ≤ 3) := by
  intro hiff
  have hsum : ((((GridCoord.mk 0 0).i : ℝ)) - ((GridCoord.mk 3 1).i : ℝ)) ^ 2
      + ((((GridCoord.mk 0 0).j : ℝ)) - ((GridCoord.mk 3 1).j : ℝ)) ^ 2 = 10 := by
    norm_num
  have hwithin : GridCoord.isWithin ⟨0, 0⟩ ⟨3, 1⟩ 3 := by
    rw [GridCoord.isWithin, GridCoord.distanceTo, hsum]
    have h1 : Real.sqrt 10 ≤ Real.sqrt ((33 / 10) ^ 2) :=
      Real.sqrt_le_sqrt (by norm_num)
    rw [Real.sqrt_sq (by norm_num : (0:ℝ) ≤ 33 / 10)] at h1
    linarith
  have hfar : ¬ (GridCoord.distanceTo ⟨0, 0⟩ ⟨3, 1⟩ ≤ 3) := by
    rw [GridCoord.distanceTo, hsum]
    intro hle
    have h3 : (3 : ℝ) < Real.sqrt 10 :=
      (Real.lt_sqrt (by norm_num)).mpr (by norm_num)
    linarith
  exact hfar (hiff.mp hwithin)

/-- Claim C6 (amended): `isWithin(other, radius)` holds iff the squared
Euclidean distance is at most `(radius + 0.3)²` — the source compares
`distanceTo` against `radius + 0.3`, not against `radius` — and the spec's
boundary examples still hold: (0,0) is within radius 3 of (3,0) but not of
(4,0). -/
theorem claim6_isWithin_amended :
    (∀ (a b : GridCoord) (r : ℝ), 0 ≤ r →
      (a.isWithin b r ↔
        ((a.i : ℝ) - b.i) ^ 2 + ((a.j : ℝ) - b.j) ^ 2 ≤ (r + 3 / 10) ^ 2)) ∧
    GridCoord.isWithin ⟨0, 0⟩ ⟨3, 0⟩ 3 ∧
    ¬ GridCoord.isWithin ⟨0, 0⟩ ⟨4, 0⟩ 3 := by
  have main : ∀ (a b : GridCoord) (r : ℝ), 0 ≤ r →
      (a.isWithin b r ↔
        ((a.i : ℝ) - b.i) ^ 2 + ((a.j : ℝ) - b.j) ^ 2 ≤ (r + 3 / 10) ^ 2) := by
    intro a b r hr
    have hc : (0 : ℝ) ≤ r + 3 / 10 := by linarith
    have hd : (0 : ℝ) ≤ ((a.i : ℝ) - b.i) ^ 2 + ((a.j : ℝ) - b.j) ^ 2 := by positivity
    rw [GridCoord.isWithin, GridCoord.distanceTo]
    constructor
    · intro h
      have hsq := pow_le_pow_left₀ (Real.sqrt_nonneg _) h 2
      rwa [Real.sq_sqrt hd] at hsq
    · intro h
      have := Real.sqrt_le_sqrt h
      rwa [Real.sqrt_sq hc] at this
  refine ⟨main, ?_, ?_⟩
  · rw [(main ⟨0, 0⟩ ⟨3, 0⟩ 3 (by norm_num))]
    norm_num
  · rw [(main ⟨0, 0⟩ ⟨4, 0⟩ 3 (by norm_num))]
    norm_num

/-- Claim C6 witness: the amended equivalence applied at (0,0), (3,1),
radius 3. -/
theorem claim6_witness :
    GridCoord.isWithin ⟨0, 0⟩ ⟨3, 1⟩ 3 ↔
      (((GridCoord.mk 0 0).i : ℝ) - (GridCoord.mk 3 1).i) ^ 2
        + (((GridCoord.mk 0 0).j : ℝ) - (GridCoord.mk 3 1).j) ^ 2 ≤ (3 + 3 / 10) ^ 2 :=
  claim6_isWithin_amended.1 ⟨0, 0⟩ ⟨3, 1⟩ 3 (by norm_num)

theorem claim7_flyweight_identity (luck : String → ℚ) (config : GameConfig)
    (g : TokenGrid) (v : ℤ) (hre : Reachable luck config g) :
    (g.getOrCreateToken v).2.getOrCreateToken v
        = ((g.getOrCreateToken v).1, (g.getOrCreateToken v).2) ∧
    mget ((g.getOrCreateToken v).2).tokens (valKey v) = some (g.getOrCreateToken v).1 ∧
    ((g.getOrCreateToken v).1).value = v := by
  have hinv := stateInv_reachable hre
  exact ⟨gct_eq_of_cached (gct_tokens_self g v), gct_tokens_self g v, gct_val v hinv.1⟩

/-- Claim C7 witness: two requests for value 4 on the fresh store. -/
theorem claim7_witness :
    (TokenGrid.fresh.getOrCreateToken 4).2.getOrCreateToken 4
      = ((TokenGrid.fresh.getOrCreateToken 4).1, (TokenGrid.fresh.getOrCreateToken 4).2) :=
  (claim7_flyweight_identity constZeroHash probOneConfig TokenGrid.fresh 4 ⟨[], rfl⟩).1

/-- Claim C8: when `getOrSpawn` decides a never-decided coordinate of a
reachable state, a token spawns iff the hash of `<coordKey>,token` is below
the configured spawn probability, and the spawned value is
`floor(hash(<coordKey>,value) * 4) + 1` — the maximum initial power is the
hard-coded constant 4 — hence lies between 1 and 4 inclusive, assuming the
spec's range contract `hash ∈ [0,1)`. -/
theorem claim8_spawn_rule (luck : String → ℚ) (config : GameConfig)
    (g : TokenGrid) (c : GridCoord) (hre : Reachable luck config g)
    (hrange : ∀ s : String, 0 ≤ luck s ∧ luck s < 1)
    (hm : mget g.modifiedCells c.toString = none) :
    ((getOrSpawnVal luck config g c).isSome = true ↔
      luck (c.toString ++ ",token") < config.tokenSpawnProbability) ∧
    (luck (c.toString ++ ",token") < config.tokenSpawnProbability →
      getOrSpawnVal luck config g c
          = some (⌊luck (c.toString ++ ",value") * 4⌋ + 1) ∧
        1 ≤ ⌊luck (c.toString ++ ",value") * 4⌋ + 1 ∧
        ⌊luck (c.toString ++ ",value") * 4⌋ + 1 ≤ 4) := by
  have hinv := stateInv_reachable hre
  have ht := tokens_none_of_memento_none hinv hm
  have hval := getOrSpawnVal_of_undecided luck config hm ht hinv.1
  constructor
  · rw [hval]
    by_cases hroll : luck (c.toString ++ ",token") < config.tokenSpawnProbability <;>
      simp [hroll]
  · intro hroll
    refine ⟨by rw [hval, if_pos hroll], ?_, ?_⟩
    · have h0 : (0 : ℚ) ≤ luck (c.toString ++ ",value") * 4 := by
        have := (hrange (c.toString ++ ",value")).1
        positivity
      have : (0 : ℤ) ≤ ⌊luck (c.toString ++ ",value") * 4⌋ := Int.floor_nonneg.mpr h0
      omega
    · have h1 : luck (c.toString ++ ",value") * 4 < 4 := by
        have := (hrange (c.toString ++ ",value")).2
        nlinarith
      have : ⌊luck (c.toString ++ ",value") * 4⌋ < (4 : ℤ) :=
        Int.floor_lt.mpr (by exact_mod_cast h1)
      omega

/-- Claim C8 witness: with the constant-zero hash and spawn probability 1,
the fresh store spawns value `floor(0 * 4) + 1 = 1` at (0,0). -/
theorem claim8_witness :
    getOrSpawnVal constZeroHash probOneConfig TokenGrid.fresh ⟨0, 0⟩
        = some (⌊constZeroHash ((GridCoord.mk 0 0).toString ++ ",value") * 4⌋ + 1) ∧
      1 ≤ ⌊constZeroHash ((GridCoord.mk 0 0).toString ++ ",value") * 4⌋ + 1 ∧
      ⌊constZeroHash ((GridCoord.mk 0 0).toString ++ ",value") * 4⌋ + 1 ≤ 4 :=
  (claim8_spawn_rule constZeroHash probOneConfig TokenGrid.fresh ⟨0, 0⟩ ⟨[], rfl⟩
    (fun s => ⟨le_refl 0, by norm_num [constZeroHash]⟩) rfl).2
    (by norm_num [constZeroHash, probOneConfig])

/-- Claim C9 counterexample: `importGameState` accepts `badPayload` — whose
only token value is the non-integer 5/2 — replacing the stored state and
reporting success, whereas the claim says an import with non-integer token
values is rejected and the stored state left unchanged. -/
theorem claim9_counterexample :
    (importGameState none (some badPayload)).1 = true ∧
    (importGameState none (some badPayload)).2 = some badPayload ∧
    ((5 : ℚ) / 2).den ≠ 1 := by
  refine ⟨rfl, rfl, ?_⟩
  norm_num

/-- Claim C9 (amended): the import is atomic — the stored payload is either
left unchanged or wholly replaced by the new payload — and an import string
that fails to parse, or whose parse lacks a truthy `player`, `grid` or
`version` field, is rejected with a failure result leaving the stored state
unchanged.  Token values are not validated, so a payload containing
non-integer token values is accepted whole. -/
theorem claim9_import_amended (stored : Option GameStateData)
    (payload : Option GameStateData) (d : GameStateData) :
    ((importGameState stored payload).2 = stored ∨
      (importGameState stored payload).2 = payload) ∧
    importGameState stored none = (false, stored) ∧
    (d.isValid = false → importGameState stored (some d) = (false, stored)) ∧
    (d.isValid = true → importGameState stored (some d) = (true, some d)) := by
  refine ⟨?_, rfl, ?_, ?_⟩
  · cases payload with
    | none => exact Or.inl rfl
    | some d' =>
      by_cases h : d'.isValid <;> simp [importGameState, h]
  · intro h
    simp [importGameState, h]
  · intro h
    simp [importGameState, h]

/-- Claim C9 witness: a payload missing the `grid` field is rejected and
the stored state kept. -/
theorem claim9_witness :
    importGameState (some badPayload)
        (some { badPayload with grid := none }) = (false, some badPayload) :=
  (claim9_import_amended (some badPayload)
    (some { badPayload with grid := none }) { badPayload with grid := none }).2.2.1
    (by decide)
